import Mathlib

/-!
Shallow embedding of the cross-chain indexed record store (`cross/db` package:
`indexDB` over a storm node with a lookaside cache).

Machine integers (`uint64` hashes, block numbers, keys) are modelled as `Nat`;
the backend (storm) is modelled as the ordered list of persisted records in
insertion (auto-increment `PK`) order together with the next `PK` to assign.
Index scans are modelled as a stable sort of the record list by the indexed
field.  Stateful operations thread the store explicitly and return their Go
result paired with the successor store.
-/

/-- The closed set of indexable field names (`FieldName` constants of the
source: `PK`, `CtxId`, `TxHash`, `Price`, `Status`, `From`,
`DestinationValue`, `BlockNum`). -/
inductive FieldName where
  | PK
  | CtxId
  | TxHash
  | Price
  | Status
  | From
  | DestinationValue
  | BlockNum
deriving DecidableEq, Repr

/-- The persisted, indexed form of a cross-chain transaction
(`CrossTransactionIndexed`): `PK` is the backend-assigned auto-increment
primary key; the remaining fields are denormalized from the signed
transaction.  The opaque signed payload is modelled as a single `Nat`. -/
structure CrossTransactionIndexed where
  PK : Nat
  CtxId : Nat
  TxHash : Nat
  BlockHash : Nat
  BlockNum : Nat
  Price : Nat
  Status : Nat
  From : Nat
  DestinationValue : Nat
  Payload : Nat
deriving DecidableEq, Repr, Inhabited

/-- Modelled from the spec: the canonical in-memory signed transaction
(`cc.CrossTransactionWithSignatures`, external domain model).  The spec
requires a record to be constructible from it and convertible back without
loss; it exposes `ID()` (the content-derived `CtxId`), `BlockHash()` and the
denormalized query fields. -/
structure CrossTransactionWithSignatures where
  ctxId : Nat
  txHash : Nat
  blockHash : Nat
  blockNum : Nat
  price : Nat
  status : Nat
  fromAddr : Nat
  destinationValue : Nat
  payload : Nat
deriving DecidableEq, Repr, Inhabited

/-- Modelled from the spec: `NewCrossTransactionIndexed` builds the persisted
record from the signed transaction; `PK` is zero until the backend assigns it
on save. -/
def NewCrossTransactionIndexed (ctx : CrossTransactionWithSignatures) :
    CrossTransactionIndexed :=
  ⟨0, ctx.ctxId, ctx.txHash, ctx.blockHash, ctx.blockNum, ctx.price,
    ctx.status, ctx.fromAddr, ctx.destinationValue, ctx.payload⟩

/-- Modelled from the spec: `ToCrossTransaction` converts the persisted record
back to the signed-transaction representation (lossless except for `PK`). -/
def CrossTransactionIndexed.ToCrossTransaction (r : CrossTransactionIndexed) :
    CrossTransactionWithSignatures :=
  ⟨r.CtxId, r.TxHash, r.BlockHash, r.BlockNum, r.Price, r.Status, r.From,
    r.DestinationValue, r.Payload⟩

/-- The value of an indexed field of a record, as the backend sees it. -/
def fieldValue : FieldName → CrossTransactionIndexed → Nat
  | .PK, r => r.PK
  | .CtxId, r => r.CtxId
  | .TxHash, r => r.TxHash
  | .Price, r => r.Price
  | .Status, r => r.Status
  | .From, r => r.From
  | .DestinationValue, r => r.DestinationValue
  | .BlockNum, r => r.BlockNum

/-- Index order on records for a given field (the order in which the backend
iterates the field's index). -/
def fieldLe (f : FieldName) (a b : CrossTransactionIndexed) : Prop :=
  fieldValue f a ≤ fieldValue f b

instance (f : FieldName) : DecidableRel (fieldLe f) := fun a b =>
  inferInstanceAs (Decidable (fieldValue f a ≤ fieldValue f b))

instance (f : FieldName) : IsTotal CrossTransactionIndexed (fieldLe f) :=
  ⟨fun a b => Nat.le_total (fieldValue f a) (fieldValue f b)⟩

instance (f : FieldName) : IsTrans CrossTransactionIndexed (fieldLe f) :=
  ⟨fun _ _ _ hab hbc => Nat.le_trans hab hbc⟩

/-- A field index scan visits the records stably sorted by the field value. -/
def sortByField (f : FieldName) (l : List CrossTransactionIndexed) :
    List CrossTransactionIndexed :=
  l.insertionSort (fieldLe f)

/-- Lexicographic comparison over a list of `OrderBy` fields
(storm sorting for `Select(...).OrderBy(fields...)`). -/
def fieldsLeB : List FieldName → CrossTransactionIndexed →
    CrossTransactionIndexed → Bool
  | [], _, _ => true
  | f :: fs, a, b =>
    if fieldValue f a = fieldValue f b then fieldsLeB fs a b
    else decide (fieldValue f a ≤ fieldValue f b)

/-- Propositional form of `fieldsLeB` used as the sort relation. -/
def fieldsLe (fs : List FieldName) (a b : CrossTransactionIndexed) : Prop :=
  fieldsLeB fs a b = true

instance (fs : List FieldName) : DecidableRel (fieldsLe fs) := fun a b =>
  inferInstanceAs (Decidable (fieldsLeB fs a b = true))

/-- A conjunction of storm matchers (`q.Matcher` variadic filter). -/
def matchesAll (filters : List (CrossTransactionIndexed → Bool))
    (r : CrossTransactionIndexed) : Bool :=
  filters.all (fun f => f r)

/-- The storm node scoped to one chain's namespace: the persisted records in
insertion order together with the next auto-increment `PK`. -/
structure StormNode where
  records : List CrossTransactionIndexed
  nextPK : Nat
deriving DecidableEq, Repr

/-- A freshly created (empty) storm namespace; auto-increment starts at 1. -/
def StormNode.empty : StormNode := ⟨[], 1⟩

/-- storm `One(field, key)`: the first record whose indexed field equals the
key, or nothing (storm's `ErrNotFound`). -/
def StormNode.one (db : StormNode) (field : FieldName) (key : Nat) :
    Option CrossTransactionIndexed :=
  db.records.find? (fun r => fieldValue field r == key)

/-- storm `Save`: assigns the next auto-increment `PK` and appends the
record; returns the persisted record (Go sets `persist.PK` in place). -/
def StormNode.save (db : StormNode) (r : CrossTransactionIndexed) :
    CrossTransactionIndexed × StormNode :=
  let persisted := { r with PK := db.nextPK }
  (persisted, ⟨db.records ++ [persisted], db.nextPK + 1⟩)

/-- storm `Update`: replaces the record with the same `PK`; fails with
`ErrNotFound` when no record has that `PK`. -/
def StormNode.updateByPK (db : StormNode) (r : CrossTransactionIndexed) :
    Except Unit StormNode :=
  if db.records.any (fun x => x.PK == r.PK) then
    .ok ⟨db.records.map (fun x => if x.PK == r.PK then r else x), db.nextPK⟩
  else
    .error ()

/-- storm `Range(field, min, max, Limit(n))`: records whose field value lies
in the inclusive window, in ascending index order, truncated to the limit. -/
def StormNode.range (db : StormNode) (field : FieldName) (lo hi : Nat)
    (limit : Nat) : List CrossTransactionIndexed :=
  ((sortByField field db.records).filter
    (fun r => decide (lo ≤ fieldValue field r) && decide (fieldValue field r ≤ hi))).take limit

/-- storm `Find(field, key)`: every record whose field equals the key, in
index order, unbounded. -/
def StormNode.findAll (db : StormNode) (field : FieldName) (key : Nat) :
    List CrossTransactionIndexed :=
  (sortByField field db.records).filter (fun r => fieldValue field r == key)

/-- storm `AllByIndex(field, Limit(n), Reverse())`: the index scanned in
descending order, truncated to the limit. -/
def StormNode.allByIndexRev (db : StormNode) (field : FieldName) (limit : Nat) :
    List CrossTransactionIndexed :=
  (sortByField field db.records).reverse.take limit

/-- storm `Select(filters...)` with optional `OrderBy`/`Reverse` (no
pagination): matching records, ordered.  Without `OrderBy` storm yields the
primary-key (insertion) order. -/
def StormNode.selectAll (db : StormNode)
    (filters : List (CrossTransactionIndexed → Bool))
    (orderBy : List FieldName) (reverse : Bool) :
    List CrossTransactionIndexed :=
  let fs := db.records.filter (matchesAll filters)
  let os := if orderBy.isEmpty then fs else fs.insertionSort (fieldsLe orderBy)
  if reverse then os.reverse else os

/-- storm `Select(filters...).Count`: the number of matching records. -/
def StormNode.countQuery (db : StormNode)
    (filters : List (CrossTransactionIndexed → Bool)) : Nat :=
  (db.records.filter (matchesAll filters)).length

/-- A backend (storm) error cause: the `ErrNotFound` sentinel, or any other
backend fault. -/
inductive StormCause where
  | notFound
  | backendFault (code : Nat)
deriving DecidableEq, Repr

/-- An error value wrapped inside `ErrCtxDbFailure`: either a storm error, or
the `fmt.Errorf("blockchain reorg, txID:%s, old:%s, new:%s", ...)` value
carrying the transaction id and the diverging block hashes. -/
inductive WrappedErr where
  | storm (e : StormCause)
  | reorgFmt (txId oldHash newHash : Nat)
deriving DecidableEq, Repr

/-- The error type `ErrCtxDbFailure`: the single error type every failing operation of the
store constructs — a context message plus an optional wrapped cause. -/
structure ErrCtxDbFailure where
  msg : String
  err : Option WrappedErr
deriving DecidableEq, Repr

/-- Structural decidable equality for `Except` results. -/
instance {e a : Type} [DecidableEq e] [DecidableEq a] : DecidableEq (Except e a) := fun x y =>
  match x, y with
  | .ok v, .ok w =>
    if h : v = w then .isTrue (by rw [h]) else .isFalse (by intro hc; cases hc; exact h rfl)
  | .ok _, .error _ => .isFalse (by intro hc; cases hc)
  | .error _, .ok _ => .isFalse (by intro hc; cases hc)
  | .error v, .error w =>
    if h : v = w then .isTrue (by rw [h]) else .isFalse (by intro hc; cases hc; exact h rfl)

/-- Modelled from the spec: the lookaside `IndexDbCache`, a capacity-bounded
mapping from (field name, field value) to an owned copy of a record, with
`Has`/`Get`/`Put` and recency-first eviction; `Put` refreshes the entry and
drops the oldest entry beyond capacity. -/
structure IndexDbCache where
  capacity : Nat
  entries : List ((FieldName × Nat) × CrossTransactionIndexed)
deriving DecidableEq, Repr

/-- Modelled from the spec: `newIndexDbCache` creates an empty bounded cache. -/
def newIndexDbCache (size : Nat) : IndexDbCache := ⟨size, []⟩

/-- Cache lookup: the record stored under (field, key), if any. -/
def IndexDbCache.Get (c : IndexDbCache) (f : FieldName) (k : Nat) :
    Option CrossTransactionIndexed :=
  (c.entries.find? (fun e => e.1 == (f, k))).map Prod.snd

/-- Cache membership test (`Has` is `Get`-success in this model). -/
def IndexDbCache.Has (c : IndexDbCache) (f : FieldName) (k : Nat) : Bool :=
  (c.Get f k).isSome

/-- Cache insertion: replace any entry under the same key, put the fresh
entry first, evict beyond capacity. -/
def IndexDbCache.Put (c : IndexDbCache) (f : FieldName) (k : Nat)
    (r : CrossTransactionIndexed) : IndexDbCache :=
  ⟨c.capacity, (((f, k), r) :: c.entries.filter (fun e => e.1 != (f, k))).take c.capacity⟩

/-- The store (`indexDB`): a chain id, the per-chain storm namespace and the
lookaside cache.  `NewIndexDB` always installs a cache, so the source's
`d.cache != nil` guards are always taken. -/
structure indexDB where
  chainID : Nat
  db : StormNode
  cache : IndexDbCache
deriving DecidableEq, Repr

/-- Construction (`NewIndexDB`): a fresh store over an empty per-chain namespace with a
bounded cache of the requested size. -/
def NewIndexDB (chainID : Nat) (cacheSize : Nat) : indexDB :=
  ⟨chainID, StormNode.empty, newIndexDbCache cacheSize⟩

/-- Accessor `ChainID()`. -/
def indexDB.ChainID (d : indexDB) : Nat := d.chainID

/-- The constant `math.MaxUint64`, the default upper bound of a `Range` scan. -/
def maxUint64 : Nat := 18446744073709551615

/-- Lookup `get`: cache-then-backend point lookup by `CtxId`.  A backend miss is
wrapped into `ErrCtxDbFailure` (message `get ctx:<id> failed`, cause storm's
not-found); a backend hit is written through to the cache. -/
def indexDB.get (d : indexDB) (ctxId : Nat) :
    Except ErrCtxDbFailure CrossTransactionIndexed × indexDB :=
  match d.cache.Get .CtxId ctxId with
  | some r => (.ok r, d)
  | none =>
    match d.db.one .CtxId ctxId with
    | none =>
      (.error ⟨"get ctx:" ++ toString ctxId ++ " failed", some (.storm .notFound)⟩, d)
    | some r => (.ok r, { d with cache := d.cache.Put .CtxId ctxId r })

/-- Operation `Write`: dedup-on-write.  Resolve the existing record by `CtxId`; if
present with a different `BlockHash`, fail with the reorg-conflict error; if
present with the same `BlockHash`, succeed without touching anything; if
absent, save a new record (backend assigns `PK`) and populate the cache. -/
def indexDB.Write (d : indexDB) (ctx : CrossTransactionWithSignatures) :
    Except ErrCtxDbFailure Unit × indexDB :=
  match d.get ctx.ctxId with
  | (.ok old, d1) =>
    if old.BlockHash ≠ ctx.blockHash then
      (.error ⟨"", some (.reorgFmt ctx.ctxId old.BlockHash ctx.blockHash)⟩, d1)
    else
      (.ok (), d1)
  | (.error _, d1) =>
    let saved := d1.db.save (NewCrossTransactionIndexed ctx)
    (.ok (), ⟨d1.chainID, saved.2, d1.cache.Put .CtxId ctx.ctxId saved.1⟩)

/-- Operation `Read`: required point lookup, converting the record back to its
signed-transaction form; propagates `get`'s error. -/
def indexDB.Read (d : indexDB) (ctxId : Nat) :
    Except ErrCtxDbFailure CrossTransactionWithSignatures × indexDB :=
  match d.get ctxId with
  | (.error e, d1) => (.error e, d1)
  | (.ok r, d1) => (.ok r.ToCrossTransaction, d1)

/-- Operation `One`: optional cache-then-backend lookup by an arbitrary indexed field;
a miss (or any backend error) yields no value rather than an error, a backend
hit is cached under (field, key). -/
def indexDB.One (d : indexDB) (field : FieldName) (key : Nat) :
    Option CrossTransactionWithSignatures × indexDB :=
  match d.cache.Get field key with
  | some r => (some r.ToCrossTransaction, d)
  | none =>
    match d.db.one field key with
    | none => (none, d)
    | some r =>
      (some r.ToCrossTransaction, { d with cache := d.cache.Put field key r })

/-- Operation `Update`: required lookup by `CtxId`, apply the caller-supplied mutation,
persist by `PK`, refresh the cache entry under `CtxId`.  The updater is
trusted by convention not to change `PK` or `CtxId`; no runtime guard
enforces it. -/
def indexDB.Update (d : indexDB) (id : Nat)
    (updater : CrossTransactionIndexed → CrossTransactionIndexed) :
    Except ErrCtxDbFailure Unit × indexDB :=
  match d.get id with
  | (.error e, d1) => (.error e, d1)
  | (.ok r, d1) =>
    match d1.db.updateByPK (updater r) with
    | .error _ => (.error ⟨"Update save fail", some (.storm .notFound)⟩, d1)
    | .ok db2 => (.ok (), ⟨d1.chainID, db2, d1.cache.Put .CtxId id (updater r)⟩)

/-- Operation `Has`: whether the required lookup succeeds. -/
def indexDB.Has (d : indexDB) (id : Nat) : Bool × indexDB :=
  match d.get id with
  | (.ok _, d1) => (true, d1)
  | (.error _, d1) => (false, d1)

/-- Operation `Range`: PK-bounded scan.  A supplied start identity is resolved to its
`PK` and excluded (`min = PK+1`); a supplied end identity is resolved and
included (`max = PK`); absent boundaries default to `[0, math.MaxUint64]`.
A boundary that fails to resolve yields the empty result. -/
def indexDB.Range (d : indexDB) (pageSize : Nat)
    (startCtxID endCtxID : Option Nat) :
    List CrossTransactionWithSignatures × indexDB :=
  match startCtxID with
  | none =>
    match endCtxID with
    | none =>
      ((d.db.range .PK 0 maxUint64 pageSize).map (·.ToCrossTransaction), d)
    | some eid =>
      match d.get eid with
      | (.error _, d1) => ([], d1)
      | (.ok e, d1) =>
        ((d1.db.range .PK 0 e.PK pageSize).map (·.ToCrossTransaction), d1)
  | some sid =>
    match d.get sid with
    | (.error _, d1) => ([], d1)
    | (.ok s, d1) =>
      match endCtxID with
      | none =>
        ((d1.db.range .PK (s.PK + 1) maxUint64 pageSize).map (·.ToCrossTransaction), d1)
      | some eid =>
        match d1.get eid with
        | (.error _, d2) => ([], d2)
        | (.ok e, d2) =>
          ((d2.db.range .PK (s.PK + 1) e.PK pageSize).map (·.ToCrossTransaction), d2)

/-- Operation `Query`: predicate matchers, optional ordering, optional reverse,
optional 1-based pagination.  A positive page size with a non-positive page
number is a caller error and yields the empty result.  Page sizes are Go
`int`s, so they are modelled as `Int`. -/
def indexDB.Query (d : indexDB) (pageSize startPage : Int)
    (orderBy : List FieldName) (reverse : Bool)
    (filters : List (CrossTransactionIndexed → Bool)) :
    List CrossTransactionWithSignatures × indexDB :=
  if pageSize > 0 ∧ startPage ≤ 0 then ([], d)
  else
    let base := d.db.selectAll filters orderBy reverse
    let page :=
      if pageSize > 0 then
        (base.drop (pageSize * (startPage - 1)).toNat).take pageSize.toNat
      else base
    (page.map (·.ToCrossTransaction), d)

/-- Operation `RangeByNumber`: page-limited ascending scan by `BlockNum` within
`[begin, end]`; the partial tail at the height of the scan's last record is
dropped and replaced by the complete, separately fetched record set at that
height.  An empty initial scan yields no result. -/
def indexDB.RangeByNumber (d : indexDB) (beginNum endNum : Nat)
    (pageSize : Nat) : List CrossTransactionWithSignatures × indexDB :=
  match d.db.range .BlockNum beginNum endNum pageSize with
  | [] => ([], d)
  | c :: cs =>
    let lastNum := ((c :: cs).getLast (List.cons_ne_nil c cs)).BlockNum
    let lasts := d.db.findAll .BlockNum lastNum
    let kept := (c :: cs).takeWhile (fun tx => tx.BlockNum != lastNum)
    (((kept ++ lasts).map (·.ToCrossTransaction)), d)

/-- Handling of the backend's `Select(...).Count` result: the error is
discarded and the zero-valued count is returned (`count, _ := ...Count(...)`). -/
def countFromBackend : Except StormCause Nat → Nat
  | .ok n => n
  | .error _ => 0

/-- Operation `Count`: the number of records matching the filters (error discarded). -/
def indexDB.Count (d : indexDB)
    (filters : List (CrossTransactionIndexed → Bool)) : Nat :=
  countFromBackend (.ok (d.db.countQuery filters))

/-- Handling of the backend's reverse limit-one index scan in `Height`: a
backend error or an empty scan reports height 0, otherwise the head record's
`BlockNum`. -/
def heightFromBackend : Except StormCause (List CrossTransactionIndexed) → Nat
  | .error _ => 0
  | .ok [] => 0
  | .ok (c :: _) => c.BlockNum

/-- Operation `Height`: the latest known `BlockNum`, via a reverse-ordered limit-one
scan on the `BlockNum` index. -/
def indexDB.Height (d : indexDB) : Nat :=
  heightFromBackend (.ok (d.db.allByIndexRev .BlockNum 1))

/-- Store well-formedness: records are in strictly ascending `PK`
(insertion) order, all below the next auto-increment key; `CtxId` is unique
among live records; and every cache entry under the `CtxId` index agrees
with the backend's unique-index lookup. -/
def indexDB.WF (d : indexDB) : Prop :=
  d.db.records.Pairwise (fun a b => a.PK < b.PK) ∧
  (∀ r ∈ d.db.records, r.PK < d.db.nextPK) ∧
  d.db.records.Pairwise (fun a b => a.CtxId ≠ b.CtxId) ∧
  (∀ e ∈ d.cache.entries, e.1.1 = FieldName.CtxId →
    d.db.one .CtxId e.1.2 = some e.2)

instance (d : indexDB) : Decidable d.WF := by
  unfold indexDB.WF
  infer_instance

/-- Concrete signed transaction used by the witnesses. -/
def exCtxA : CrossTransactionWithSignatures := ⟨5, 50, 100, 7, 2, 0, 11, 3, 900⟩

/-- The same transaction identity observed in a different origin block. -/
def exCtxAReorg : CrossTransactionWithSignatures := ⟨5, 50, 200, 7, 2, 0, 11, 3, 900⟩

/-- A fresh store. -/
def exStore0 : indexDB := NewIndexDB 1 8

/-- The store after writing `exCtxA` into a fresh store. -/
def exStore1 : indexDB := (exStore0.Write exCtxA).2

/-- Transactions at origin heights 5, 9 and 3. -/
def exCtxH5 : CrossTransactionWithSignatures := ⟨21, 0, 0, 5, 0, 0, 0, 0, 0⟩

def exCtxH9 : CrossTransactionWithSignatures := ⟨22, 0, 0, 9, 0, 0, 0, 0, 0⟩

def exCtxH3 : CrossTransactionWithSignatures := ⟨23, 0, 0, 3, 0, 0, 0, 0, 0⟩

/-- The store after inserting records at heights 5, 9 and 3. -/
def exStore593 : indexDB :=
  ((((NewIndexDB 1 8).Write exCtxH5).2.Write exCtxH9).2.Write exCtxH3).2

/-- Transactions at heights 1, 2 and 2 (two records sharing a height). -/
def exCtxN1 : CrossTransactionWithSignatures := ⟨31, 0, 0, 1, 0, 0, 0, 0, 0⟩

def exCtxN2a : CrossTransactionWithSignatures := ⟨32, 0, 0, 2, 0, 0, 0, 0, 0⟩

def exCtxN2b : CrossTransactionWithSignatures := ⟨33, 0, 0, 2, 0, 0, 0, 0, 0⟩

/-- The store holding the three height-1/2/2 records. -/
def exStoreH : indexDB :=
  ((((NewIndexDB 1 8).Write exCtxN1).2.Write exCtxN2a).2.Write exCtxN2b).2

/-- The lookup `get` never changes the backend state: only the cache is touched. -/
theorem get_db_eq (d : indexDB) (id : Nat) : ((d.get id).2).db = d.db := by
  unfold indexDB.get
  rcases hc : d.cache.Get .CtxId id with _ | r
  · rcases hb : d.db.one .CtxId id with _ | r
    · simp [hc, hb]
    · simp [hc, hb]
  · simp [hc]

/-- In a well-formed store, a cache hit under the `CtxId` index agrees with
the backend's unique-index lookup. -/
theorem cache_hit_agrees {d : indexDB} (hwf : d.WF) {k : Nat}
    {r : CrossTransactionIndexed} (h : d.cache.Get .CtxId k = some r) :
    d.db.one .CtxId k = some r := by
  obtain ⟨-, -, -, hcache⟩ := hwf
  unfold IndexDbCache.Get at h
  rcases hf : d.cache.entries.find? (fun e => e.1 == (FieldName.CtxId, k)) with _ | e
  · rw [hf] at h; simp at h
  · rw [hf] at h
    simp only [Option.map_some'] at h
    have hmem := List.mem_of_find?_eq_some hf
    have hp := List.find?_some hf
    have he1 : e.1 = (FieldName.CtxId, k) := beq_iff_eq.mp hp
    have h11 : e.1.1 = FieldName.CtxId := by rw [he1]
    have h12 : e.1.2 = k := by rw [he1]
    have hone := hcache e hmem h11
    rw [h12, h] at hone
    exact hone

/-- In a well-formed store, `get` on a present `CtxId` returns the backend's
record. -/
theorem get_hit {d : indexDB} (hwf : d.WF) {id : Nat}
    {r : CrossTransactionIndexed} (h : d.db.one .CtxId id = some r) :
    (d.get id).1 = .ok r := by
  unfold indexDB.get
  rcases hc : d.cache.Get .CtxId id with _ | r'
  · simp [hc, h]
  · have hag := cache_hit_agrees hwf hc
    rw [h] at hag
    simp only [hc]
    exact congrArg Except.ok (Option.some_inj.mp hag).symm

/-- In a well-formed store, `get` on an absent `CtxId` fails with the
`ErrCtxDbFailure` wrapper around the backend's not-found, leaving the store
untouched. -/
theorem get_miss {d : indexDB} (hwf : d.WF) {id : Nat}
    (h : d.db.one .CtxId id = none) :
    d.get id = (.error ⟨"get ctx:" ++ toString id ++ " failed",
      some (.storm .notFound)⟩, d) := by
  unfold indexDB.get
  rcases hc : d.cache.Get .CtxId id with _ | r'
  · simp [hc, h]
  · have hag := cache_hit_agrees hwf hc
    rw [h] at hag
    exact absurd hag (by simp)

/-- The lookup `get` preserves well-formedness. -/
theorem get_wf {d : indexDB} (hwf : d.WF) (id : Nat) : ((d.get id).2).WF := by
  unfold indexDB.get
  rcases hc : d.cache.Get .CtxId id with _ | r'
  · rcases hb : d.db.one .CtxId id with _ | r
    · simpa [hc, hb] using hwf
    · simp only [hc, hb]
      obtain ⟨h1, h2, h3, h4⟩ := hwf
      refine ⟨h1, h2, h3, ?_⟩
      intro e he h11
      unfold IndexDbCache.Put at he
      have he' := List.take_subset _ _ he
      rcases List.mem_cons.mp he' with rfl | htail
      · simpa using hb
      · exact h4 e (List.mem_of_mem_filter htail) h11
  · simpa [hc] using hwf

/-- On a list with pairwise-distinct `CtxId`s, `find?` by a member's `CtxId`
returns exactly that member. -/
theorem find?_ctxid_of_mem :
    ∀ (l : List CrossTransactionIndexed),
      l.Pairwise (fun a b => a.CtxId ≠ b.CtxId) →
      ∀ r ∈ l, l.find? (fun x => fieldValue .CtxId x == r.CtxId) = some r
  | [], _, r, hr => absurd hr (List.not_mem_nil r)
  | a :: t, hp, r, hr => by
    rcases List.mem_cons.mp hr with rfl | hrt
    · simp [List.find?_cons, fieldValue]
    · have hne : a.CtxId ≠ r.CtxId := (List.pairwise_cons.mp hp).1 r hrt
      rw [List.find?_cons]
      have hfa : (fieldValue .CtxId a == r.CtxId) = false := by
        simpa [fieldValue] using hne
      rw [hfa]
      exact find?_ctxid_of_mem t (List.pairwise_cons.mp hp).2 r hrt

/-- In a well-formed store the unique `CtxId` index resolves every stored
record to itself. -/
theorem one_of_mem {d : indexDB} (hwf : d.WF) {r : CrossTransactionIndexed}
    (hr : r ∈ d.db.records) : d.db.one .CtxId r.CtxId = some r :=
  find?_ctxid_of_mem d.db.records hwf.2.2.1 r hr

/-- The record list of a well-formed store is already in `PK` index order. -/
theorem sortByField_pk_eq {d : indexDB} (hwf : d.WF) :
    sortByField .PK d.db.records = d.db.records :=
  List.Sorted.insertionSort_eq (hwf.1.imp (fun h => Nat.le_of_lt h))

/-- A `PK` range scan of a well-formed store is the page-limited filter of
the insertion-ordered records. -/
theorem range_pk_eq {d : indexDB} (hwf : d.WF) (lo hi n : Nat) :
    d.db.range .PK lo hi n =
      (d.db.records.filter
        (fun r => decide (lo ≤ r.PK) && decide (r.PK ≤ hi))).take n := by
  unfold StormNode.range
  rw [sortByField_pk_eq hwf]
  rfl

/-- A `PK` range scan is strictly ascending by `PK` and no longer than the
page size. -/
theorem range_pk_shape {d : indexDB} (hwf : d.WF) (lo hi n : Nat) :
    (d.db.range .PK lo hi n).Pairwise (fun a b => a.PK < b.PK) ∧
    (d.db.range .PK lo hi n).length ≤ n := by
  rw [range_pk_eq hwf]
  exact ⟨List.Pairwise.sublist
    ((List.take_sublist _ _).trans (List.filter_sublist _)) hwf.1,
    List.length_take_le _ _⟩

/-- A cache `Put` is visible to the next `Get` under the same key whenever
the cache has any capacity. -/
theorem put_get (c : IndexDbCache) (f : FieldName) (k : Nat)
    (r : CrossTransactionIndexed) :
    (c.Put f k r).Get f k = if c.capacity = 0 then none else some r := by
  unfold IndexDbCache.Put IndexDbCache.Get
  rcases hcap : c.capacity with _ | m
  · simp
  · simp [List.take_succ_cons, List.find?_cons]

/-- In a list sorted by a field, every element's field value is bounded by
the last element's. -/
theorem pairwise_le_getLast (f : FieldName) :
    ∀ (l : List CrossTransactionIndexed), List.Pairwise (fieldLe f) l →
      ∀ x ∈ l, ∀ (hne : l ≠ []), fieldValue f x ≤ fieldValue f (l.getLast hne)
  | [] => by intro _ x hx _; exact absurd hx (List.not_mem_nil x)
  | [a] => by
    intro _ x hx hne
    rcases List.mem_singleton.mp hx with rfl
    exact Nat.le_refl _
  | a :: b :: t => by
    intro hp x hx hne
    have hgl : (a :: b :: t).getLast hne = (b :: t).getLast (List.cons_ne_nil b t) :=
      List.getLast_cons (List.cons_ne_nil b t)
    rw [hgl]
    rcases List.mem_cons.mp hx with rfl | hxt
    · exact (List.pairwise_cons.mp hp).1 _ (List.getLast_mem (List.cons_ne_nil b t))
    · exact pairwise_le_getLast f (b :: t) (List.pairwise_cons.mp hp).2 x hxt
        (List.cons_ne_nil b t)

/-- Replacing the record found by `CtxId` with one of equal `PK` and `CtxId`
(the `Update` persistence step) makes the same `CtxId` lookup find the
replacement. -/
theorem find?_ctx_map_replace :
    ∀ (l : List CrossTransactionIndexed) (id : Nat)
      (r r' : CrossTransactionIndexed),
      l.Pairwise (fun a b => a.PK < b.PK) →
      l.find? (fun x => fieldValue .CtxId x == id) = some r →
      r'.PK = r.PK → r'.CtxId = r.CtxId →
      (l.map (fun x => if x.PK == r.PK then r' else x)).find?
        (fun x => fieldValue .CtxId x == id) = some r'
  | [], id, r, r', _, hfind, _, _ => by simp at hfind
  | a :: t, id, r, r', hp, hfind, hpk, hctx => by
    rw [List.find?_cons] at hfind
    cases hpa : (fieldValue .CtxId a == id) with
    | true =>
      rw [hpa] at hfind
      have har : a = r := by simpa using hfind
      subst har
      have hhead : (if a.PK == a.PK then r' else a) = r' := by simp
      simp only [List.map_cons, hhead]
      rw [List.find?_cons]
      have hpr' : (fieldValue .CtxId r' == id) = true := by
        simp only [fieldValue] at hpa ⊢
        rw [hctx]
        exact hpa
      rw [hpr']
    | false =>
      rw [hpa] at hfind
      have hrt : r ∈ t := List.mem_of_find?_eq_some hfind
      have hapk : a.PK < r.PK := (List.pairwise_cons.mp hp).1 r hrt
      have hhead : (if a.PK == r.PK then r' else a) = a := by
        simp [Nat.ne_of_lt hapk]
      simp only [List.map_cons, hhead]
      rw [List.find?_cons, hpa]
      exact find?_ctx_map_replace t id r r' (List.pairwise_cons.mp hp).2 hfind hpk hctx

/-- C10: for every filter, a failing backend query makes `Count` return 0
with the error discarded (`count, _ := ...Count(...)`), and a failing
reverse index scan makes `Height` return 0; both coincide with a fresh
(empty) store's results, so a caller cannot distinguish a backend failure
from an empty store through either operation. -/
theorem count_height_indistinguishable_failure
    (e : StormCause) (filters : List (CrossTransactionIndexed → Bool))
    (cid sz : Nat) :
    countFromBackend (.error e) = 0 ∧
    heightFromBackend (.error e) = 0 ∧
    countFromBackend (.error e) = (NewIndexDB cid sz).Count filters ∧
    heightFromBackend (.error e) = (NewIndexDB cid sz).Height := by
  refine ⟨rfl, rfl, ?_, rfl⟩
  simp [indexDB.Count, NewIndexDB, StormNode.countQuery, StormNode.empty,
    countFromBackend]

/-- C9: `Height` reports the latest known `BlockNum` via the reverse-ordered
limit-one scan on the height index: a fresh store reports 0; the store built
by inserting records at heights {5, 9, 3} reports 9; and in every store with
records, `Height` bounds all stored heights and is itself a stored height. -/
theorem height_semantics (cid sz : Nat) :
    (NewIndexDB cid sz).Height = 0 ∧
    exStore593.Height = 9 ∧
    (∀ d : indexDB, d.db.records ≠ [] →
      (∀ r ∈ d.db.records, r.BlockNum ≤ d.Height) ∧
      (∃ r ∈ d.db.records, r.BlockNum = d.Height)) := by
  refine ⟨rfl, by decide, ?_⟩
  intro d hne
  have hperm : (sortByField .BlockNum d.db.records).Perm d.db.records :=
    List.perm_insertionSort (fieldLe .BlockNum) d.db.records
  have hsne : sortByField .BlockNum d.db.records ≠ [] := by
    intro h0
    rw [h0] at hperm
    exact hne hperm.symm.eq_nil
  have hsorted : List.Pairwise (fieldLe .BlockNum)
      (sortByField .BlockNum d.db.records) :=
    List.sorted_insertionSort (fieldLe .BlockNum) d.db.records
  have hsplit := List.dropLast_append_getLast hsne
  have hrev : (sortByField .BlockNum d.db.records).reverse =
      (sortByField .BlockNum d.db.records).getLast hsne ::
        (sortByField .BlockNum d.db.records).dropLast.reverse := by
    conv_lhs => rw [← hsplit]
    simp
  have hheight : d.Height =
      ((sortByField .BlockNum d.db.records).getLast hsne).BlockNum := by
    unfold indexDB.Height StormNode.allByIndexRev heightFromBackend
    rw [hrev]
    rfl
  constructor
  · intro r hr
    have hrs : r ∈ sortByField .BlockNum d.db.records := by
      rw [List.Perm.mem_iff hperm]
      exact hr
    rw [hheight]
    exact pairwise_le_getLast .BlockNum _ hsorted r hrs hsne
  · refine ⟨(sortByField .BlockNum d.db.records).getLast hsne, ?_, hheight.symm⟩
    rw [← List.Perm.mem_iff hperm]
    exact List.getLast_mem hsne

/-- Witness for C9 at the concrete {5, 9, 3} store. -/
theorem height_semantics_witness :
    exStore593.db.records ≠ [] ∧
    (∀ r ∈ exStore593.db.records, r.BlockNum ≤ exStore593.Height) :=
  ⟨by decide, ((height_semantics 1 8).2.2 exStore593 (by decide)).1⟩

/-- C6: `Query(pageSize=k, startPage=p)` with `k > 0` and `p ≥ 1` returns
exactly elements `k*(p-1)` through `k*p-1` of the ordered, filtered result,
and `k > 0` with `p ≤ 0` yields the empty result rather than an error. -/
theorem query_pagination_spec (d : indexDB) (k p : Int)
    (orderBy : List FieldName) (reverse : Bool)
    (filters : List (CrossTransactionIndexed → Bool)) :
    (0 < k → 1 ≤ p →
      (d.Query k p orderBy reverse filters).1 =
        (((d.db.selectAll filters orderBy reverse).map
          (·.ToCrossTransaction)).drop (k * (p - 1)).toNat).take k.toNat) ∧
    (0 < k → p ≤ 0 → (d.Query k p orderBy reverse filters).1 = []) := by
  constructor
  · intro hk hp
    have hp' : ¬(p ≤ 0) := by omega
    simp [indexDB.Query, hk, hp', List.map_take, List.map_drop]
  · intro hk hp
    simp [indexDB.Query, hk, hp]

/-- Witness for C6: page 2 of size 2 over the three-record store. -/
theorem query_pagination_spec_witness :
    (0 < (2 : Int) ∧ 1 ≤ (2 : Int)) ∧
    (exStoreH.Query 2 2 [] false []).1 =
      (((exStoreH.db.selectAll [] [] false).map
        (·.ToCrossTransaction)).drop ((2 : Int) * (2 - 1)).toNat).take (2 : Int).toNat :=
  ⟨⟨by decide, by decide⟩,
    (query_pagination_spec exStoreH 2 2 [] false []).1 (by decide) (by decide)⟩

/-- C8: `One` is a soft lookup: when the cache misses (field, key) and no
record matches, it returns no value — its return type carries no error at
all — and on a backend hit it returns the record and caches it under
(field, key), where it is visible whenever the cache has any capacity. -/
theorem one_soft_miss_and_caching (d : indexDB) (field : FieldName) (key : Nat)
    (hmiss : d.cache.Get field key = none) :
    (d.db.one field key = none → d.One field key = (none, d)) ∧
    (∀ r, d.db.one field key = some r →
      d.One field key =
        (some r.ToCrossTransaction, { d with cache := d.cache.Put field key r }) ∧
      (0 < d.cache.capacity →
        ((d.One field key).2).cache.Get field key = some r)) := by
  constructor
  · intro h
    unfold indexDB.One
    rw [hmiss, h]
  · intro r h
    have hone : d.One field key =
        (some r.ToCrossTransaction, { d with cache := d.cache.Put field key r }) := by
      unfold indexDB.One
      rw [hmiss, h]
    refine ⟨hone, ?_⟩
    intro hcap
    rw [hone]
    show (d.cache.Put field key r).Get field key = some r
    rw [put_get]
    exact if_neg (Nat.pos_iff_ne_zero.mp hcap)

/-- Witness for C8: a backend hit on the `TxHash` index of the one-record
store, with an empty slot for that key in the cache. -/
theorem one_soft_miss_and_caching_witness :
    exStore1.cache.Get FieldName.TxHash 50 = none ∧
    exStore1.One FieldName.TxHash 50 =
      (some (CrossTransactionIndexed.ToCrossTransaction ⟨1, 5, 50, 100, 7, 2, 0, 11, 3, 900⟩),
        { exStore1 with
          cache := exStore1.cache.Put FieldName.TxHash 50 ⟨1, 5, 50, 100, 7, 2, 0, 11, 3, 900⟩ }) :=
  ⟨by decide,
    ((one_soft_miss_and_caching exStore1 FieldName.TxHash 50 (by decide)).2
      ⟨1, 5, 50, 100, 7, 2, 0, 11, 3, 900⟩ (by decide)).1⟩

/-- C7 (amended): on an absent `CtxId` the required lookups fail and nothing
is persisted: `Read` and `Update` both return the store's `ErrCtxDbFailure`
wrapper — the same error type used for storage failures — carrying the
backend's not-found cause, and leave the store exactly as it was. -/
theorem get_absent_fails_with_wrapped_notfound (d : indexDB) (hwf : d.WF)
    (id : Nat) (updater : CrossTransactionIndexed → CrossTransactionIndexed)
    (h : d.db.one .CtxId id = none) :
    d.Read id = (.error ⟨"get ctx:" ++ toString id ++ " failed",
      some (.storm .notFound)⟩, d) ∧
    d.Update id updater = (.error ⟨"get ctx:" ++ toString id ++ " failed",
      some (.storm .notFound)⟩, d) := by
  have hg := get_miss hwf h
  constructor
  · unfold indexDB.Read
    rw [hg]
  · unfold indexDB.Update
    rw [hg]

/-- Witness for C7's amended theorem at the empty store. -/
theorem get_absent_fails_with_wrapped_notfound_witness :
    exStore0.WF ∧
    exStore0.Read 0 = (.error ⟨"get ctx:0 failed", some (.storm .notFound)⟩,
      exStore0) :=
  ⟨by decide,
    (get_absent_fails_with_wrapped_notfound exStore0 (by decide) 0 id
      (by decide)).1⟩

/-- C7 counterexample: the error surfaced for an absent identity is not a
distinct NotFound type.  At the empty store, `Read 0` fails with the
`ErrCtxDbFailure` wrapper — the same single error type the store uses for
storage failures — and an `Update` whose persistence step fails produces the
same wrapper with the same wrapped cause, the two being distinguishable only
by their message strings. -/
theorem read_error_is_storage_wrapper_counterexample :
    (exStore0.Read 0).1 =
      .error ⟨"get ctx:0 failed", some (.storm .notFound)⟩ ∧
    (exStore1.Update 5 (fun r => { r with PK := 99 })).1 =
      .error ⟨"Update save fail", some (.storm .notFound)⟩ ∧
    ((⟨"get ctx:0 failed", some (.storm .notFound)⟩ : ErrCtxDbFailure).err =
      (⟨"Update save fail", some (.storm .notFound)⟩ : ErrCtxDbFailure).err) := by
  refine ⟨by decide, by decide, rfl⟩

/-- C1: writing an observation whose `CtxId` matches a stored record but
whose `BlockHash` differs fails with the reorg-conflict `ErrCtxDbFailure`
wrapping the formatted error that reports the transaction id and the old and
new block hashes, and leaves the backend — hence the stored record and the
count — unaltered. -/
theorem write_reorg_conflict (d : indexDB) (hwf : d.WF)
    (old : CrossTransactionIndexed) (ctx : CrossTransactionWithSignatures)
    (hmem : old ∈ d.db.records) (hid : old.CtxId = ctx.ctxId)
    (hdiff : old.BlockHash ≠ ctx.blockHash) :
    (d.Write ctx).1 =
      .error ⟨"", some (.reorgFmt ctx.ctxId old.BlockHash ctx.blockHash)⟩ ∧
    ((d.Write ctx).2).db = d.db ∧
    ∀ filters, ((d.Write ctx).2).Count filters = d.Count filters := by
  have hone : d.db.one .CtxId ctx.ctxId = some old := by
    rw [← hid]
    exact one_of_mem hwf hmem
  rcases hget : d.get ctx.ctxId with ⟨res, d1⟩
  have hres : res = .ok old := by
    have h1 := get_hit hwf hone
    rw [hget] at h1
    exact h1
  subst hres
  have hd1 : d1.db = d.db := by
    have h1 := get_db_eq d ctx.ctxId
    rw [hget] at h1
    exact h1
  have hw : d.Write ctx =
      (.error ⟨"", some (.reorgFmt ctx.ctxId old.BlockHash ctx.blockHash)⟩, d1) := by
    simp only [indexDB.Write, hget]
    rw [if_pos hdiff]
  rw [hw]
  exact ⟨rfl, hd1, fun filters => by
    simp [indexDB.Count, StormNode.countQuery, hd1]⟩

/-- Witness for C1: re-observing the stored transaction with block hash 200
instead of 100. -/
theorem write_reorg_conflict_witness :
    exStore1.WF ∧
    (exStore1.Write exCtxAReorg).1 =
      .error ⟨"", some (.reorgFmt 5 100 200)⟩ :=
  ⟨by decide,
    (write_reorg_conflict exStore1 (by decide) ⟨1, 5, 50, 100, 7, 2, 0, 11, 3, 900⟩
      exCtxAReorg (by decide) (by decide) (by decide)).1⟩

/-- C2 counterexample: `Update` has no runtime guard on identity fields.  At
the one-record store, an updater that rewrites `CtxId` from 5 to 7 succeeds
and is persisted: afterwards no record with `CtxId` 5 exists and the stored
record carries `CtxId` 7, so the claim that `PK` and `CtxId` are unchanged
*regardless of what the updater does* is false. -/
theorem update_changes_identity_counterexample :
    (exStore1.Update 5 (fun r => { r with CtxId := 7 })).1 = .ok () ∧
    ((exStore1.Update 5 (fun r => { r with CtxId := 7 })).2).db.one .CtxId 5 = none ∧
    ((exStore1.Update 5 (fun r => { r with CtxId := 7 })).2).db.one .CtxId 7 =
      some ⟨1, 7, 50, 100, 7, 2, 0, 11, 3, 900⟩ :=
  ⟨by decide, by decide, by decide⟩

/-- C2 (amended): for every updater that honors the documented contract of
not touching `PK` and `CtxId`, `Update` succeeds, the persisted store is the
original with exactly the found record replaced by its mutation — so `PK`
and `CtxId` are unchanged and every other field reflects the mutation — and
the `CtxId` lookup resolves to the mutated record. -/
theorem update_identity_preserved_under_contract (d : indexDB) (hwf : d.WF)
    (id : Nat) (r : CrossTransactionIndexed)
    (updater : CrossTransactionIndexed → CrossTransactionIndexed)
    (hone : d.db.one .CtxId id = some r)
    (hpk : (updater r).PK = r.PK) (hctx : (updater r).CtxId = r.CtxId) :
    (d.Update id updater).1 = .ok () ∧
    ((d.Update id updater).2).db.records =
      d.db.records.map (fun x => if x.PK == r.PK then updater r else x) ∧
    ((d.Update id updater).2).db.one .CtxId id = some (updater r) := by
  have hrmem : r ∈ d.db.records := List.mem_of_find?_eq_some hone
  have hfind : d.db.records.find? (fun x => fieldValue .CtxId x == id) = some r := hone
  rcases hget : d.get id with ⟨res, d1⟩
  have hres : res = .ok r := by
    have h1 := get_hit hwf hone
    rw [hget] at h1
    exact h1
  subst hres
  have hd1 : d1.db = d.db := by
    have h1 := get_db_eq d id
    rw [hget] at h1
    exact h1
  have hany : d1.db.records.any (fun x => x.PK == (updater r).PK) = true := by
    rw [hd1]
    refine List.any_eq_true.mpr ⟨r, hrmem, ?_⟩
    rw [hpk]
    simp
  have hupd : d1.db.updateByPK (updater r) =
      .ok ⟨d1.db.records.map (fun x => if x.PK == (updater r).PK then updater r else x),
        d1.db.nextPK⟩ := by
    unfold StormNode.updateByPK
    rw [if_pos hany]
  have hu : d.Update id updater = (.ok (),
      ⟨d1.chainID,
        ⟨d1.db.records.map (fun x => if x.PK == (updater r).PK then updater r else x),
          d1.db.nextPK⟩,
        d1.cache.Put .CtxId id (updater r)⟩) := by
    simp only [indexDB.Update, hget, hupd]
  rw [hu]
  refine ⟨rfl, ?_, ?_⟩
  · simp only [hd1, hpk]
  · show StormNode.one _ .CtxId id = _
    unfold StormNode.one
    simp only [hd1, hpk]
    exact find?_ctx_map_replace d.db.records id r (updater r) hwf.1 hfind hpk hctx

/-- Witness for C2's amended theorem: a contract-respecting updater that
changes `Status` to 42. -/
theorem update_identity_preserved_under_contract_witness :
    exStore1.WF ∧
    (exStore1.Update 5 (fun x => { x with Status := 42 })).1 = .ok () ∧
    ((exStore1.Update 5 (fun x => { x with Status := 42 })).2).db.one .CtxId 5 =
      some ⟨1, 5, 50, 100, 7, 2, 42, 11, 3, 900⟩ :=
  ⟨by decide,
    (update_identity_preserved_under_contract exStore1 (by decide) 5
      ⟨1, 5, 50, 100, 7, 2, 0, 11, 3, 900⟩ (fun x => { x with Status := 42 })
      (by decide) (by decide) (by decide)).1,
    (update_identity_preserved_under_contract exStore1 (by decide) 5
      ⟨1, 5, 50, 100, 7, 2, 0, 11, 3, 900⟩ (fun x => { x with Status := 42 })
      (by decide) (by decide) (by decide)).2.2⟩

/-- Writing a transaction whose record is already resolvable (cache-first,
then backend) with an equal block hash is a no-op success that keeps the
backend unchanged. -/
theorem write_dup_general (T : indexDB) (ctx : CrossTransactionWithSignatures)
    (r : CrossTransactionIndexed)
    (hcache : T.cache.Get .CtxId ctx.ctxId = none ∨
      T.cache.Get .CtxId ctx.ctxId = some r)
    (hone : T.db.one .CtxId ctx.ctxId = some r)
    (hbh : r.BlockHash = ctx.blockHash) :
    (T.Write ctx).1 = .ok () ∧ (T.Write ctx).2.db = T.db := by
  have hget1 : (T.get ctx.ctxId).1 = .ok r := by
    unfold indexDB.get
    rcases hcache with hc | hc
    · rw [hc, hone]
    · rw [hc]
  rcases hg : T.get ctx.ctxId with ⟨res, d1⟩
  rw [hg] at hget1
  have hres : res = .ok r := hget1
  subst hres
  have hd1 : d1.db = T.db := by
    have h1 := get_db_eq T ctx.ctxId
    rw [hg] at h1
    exact h1
  have hw : T.Write ctx = (.ok (), d1) := by
    simp only [indexDB.Write, hg]
    rw [if_neg (by simp [hbh])]
  rw [hw]
  exact ⟨rfl, hd1⟩

/-- C5: writing the same transaction twice with an unchanged block hash is
idempotent: the first write (into a store where the identity is absent)
succeeds, the duplicate write succeeds as a no-op, and the backend — count
and every stored field — is identical after the second write. -/
theorem write_idempotent (d : indexDB) (ctx : CrossTransactionWithSignatures)
    (hwf : d.WF) (habsent : d.db.one .CtxId ctx.ctxId = none) :
    (d.Write ctx).1 = .ok () ∧
    ((d.Write ctx).2.Write ctx).1 = .ok () ∧
    (((d.Write ctx).2.Write ctx).2).db = ((d.Write ctx).2).db := by
  have hg := get_miss hwf habsent
  have hw1 : d.Write ctx = (.ok (),
      ⟨d.chainID,
        ⟨d.db.records ++ [{ NewCrossTransactionIndexed ctx with PK := d.db.nextPK }],
          d.db.nextPK + 1⟩,
        d.cache.Put .CtxId ctx.ctxId
          { NewCrossTransactionIndexed ctx with PK := d.db.nextPK }⟩) := by
    simp only [indexDB.Write, hg, StormNode.save]
  rw [hw1]
  refine ⟨rfl,
    (write_dup_general _ ctx { NewCrossTransactionIndexed ctx with PK := d.db.nextPK }
      ?_ ?_ rfl).1,
    (write_dup_general _ ctx { NewCrossTransactionIndexed ctx with PK := d.db.nextPK }
      ?_ ?_ rfl).2⟩ <;>
  first
  | (dsimp only
     rw [put_get]
     rcases Nat.eq_zero_or_pos d.cache.capacity with h | h
     · left
       rw [if_pos h]
     · right
       rw [if_neg (Nat.pos_iff_ne_zero.mp h)])
  | (dsimp only
     unfold StormNode.one at habsent ⊢
     dsimp only
     rw [List.find?_append, habsent]
     simp [fieldValue, NewCrossTransactionIndexed])

/-- Witness for C5: the double write of `exCtxA` into the fresh store. -/
theorem write_idempotent_witness :
    exStore0.WF ∧
    ((exStore0.Write exCtxA).2.Write exCtxA).1 = .ok () :=
  ⟨by decide,
    (write_idempotent exStore0 exCtxA (by decide) (by decide)).2.1⟩

/-- C3: `RangeByNumber` is height-complete.  An empty initial scan yields no
result; otherwise, with `h` the height of the last record of the page-limited
window, every stored record at height `h` is in the result (the partial tail
at `h` is replaced by the complete separately fetched set), `h` is the
maximum height occurring in the result, and some result record realizes it —
so the records at the maximum height of the result are all present, never a
partial subset. -/
theorem rangeByNumber_height_complete (d : indexDB) (b e k : Nat) :
    (d.db.range .BlockNum b e k = [] → (d.RangeByNumber b e k).1 = []) ∧
    (∀ c cs, d.db.range .BlockNum b e k = c :: cs →
      (∀ r ∈ d.db.records,
        r.BlockNum = ((c :: cs).getLast (List.cons_ne_nil c cs)).BlockNum →
        r.ToCrossTransaction ∈ (d.RangeByNumber b e k).1) ∧
      (∀ x ∈ (d.RangeByNumber b e k).1,
        x.blockNum ≤ ((c :: cs).getLast (List.cons_ne_nil c cs)).BlockNum) ∧
      (∃ x ∈ (d.RangeByNumber b e k).1,
        x.blockNum = ((c :: cs).getLast (List.cons_ne_nil c cs)).BlockNum)) := by
  constructor
  · intro h
    unfold indexDB.RangeByNumber
    rw [h]
  · intro c cs h
    have hperm : (sortByField .BlockNum d.db.records).Perm d.db.records :=
      List.perm_insertionSort (fieldLe .BlockNum) d.db.records
    have hres : (d.RangeByNumber b e k).1 =
        ((c :: cs).takeWhile
            (fun tx => tx.BlockNum != ((c :: cs).getLast (List.cons_ne_nil c cs)).BlockNum) ++
          d.db.findAll .BlockNum ((c :: cs).getLast (List.cons_ne_nil c cs)).BlockNum).map
          (·.ToCrossTransaction) := by
      simp only [indexDB.RangeByNumber, h]
    have hLsub : ∀ x ∈ c :: cs, x ∈ d.db.records := by
      intro x hx
      rw [← h] at hx
      unfold StormNode.range at hx
      have hx1 := List.take_subset _ _ hx
      have hx2 := List.mem_of_mem_filter hx1
      exact (List.Perm.mem_iff hperm).mp hx2
    have hLsorted : List.Pairwise (fieldLe .BlockNum) (c :: cs) := by
      rw [← h]
      unfold StormNode.range
      exact List.Pairwise.sublist
        ((List.take_sublist _ _).trans (List.filter_sublist _))
        (List.sorted_insertionSort (fieldLe .BlockNum) d.db.records)
    have hcomplete : ∀ r ∈ d.db.records,
        r.BlockNum = ((c :: cs).getLast (List.cons_ne_nil c cs)).BlockNum →
        r.ToCrossTransaction ∈ (d.RangeByNumber b e k).1 := by
      intro r hr hbn
      rw [hres]
      apply List.mem_map_of_mem
      apply List.mem_append_right
      unfold StormNode.findAll
      rw [List.mem_filter]
      exact ⟨(List.Perm.mem_iff hperm).mpr hr, by simp [fieldValue, hbn]⟩
    refine ⟨hcomplete, ?_, ?_⟩
    · intro x hx
      rw [hres] at hx
      obtain ⟨y, hy, rfl⟩ := List.mem_map.mp hx
      rcases List.mem_append.mp hy with hyk | hyl
      · have hyL : y ∈ c :: cs := (List.takeWhile_sublist _).subset hyk
        exact pairwise_le_getLast .BlockNum (c :: cs) hLsorted y hyL
          (List.cons_ne_nil c cs)
      · have := List.of_mem_filter hyl
        simp only [fieldValue] at this
        have heq : y.BlockNum = ((c :: cs).getLast (List.cons_ne_nil c cs)).BlockNum :=
          beq_iff_eq.mp this
        exact Nat.le_of_eq heq
    · refine ⟨((c :: cs).getLast (List.cons_ne_nil c cs)).ToCrossTransaction,
        hcomplete _ (hLsub _ (List.getLast_mem (List.cons_ne_nil c cs))) rfl, rfl⟩

/-- Witness for C3 at the store with heights 1, 2, 2 and page size 2: the
page-limited window cuts the height-2 set in half, yet both height-2 records
are in the result. -/
theorem rangeByNumber_height_complete_witness :
    exStoreH.db.range .BlockNum 0 5 2 =
      [⟨1, 31, 0, 0, 1, 0, 0, 0, 0, 0⟩, ⟨2, 32, 0, 0, 2, 0, 0, 0, 0, 0⟩] ∧
    CrossTransactionIndexed.ToCrossTransaction ⟨3, 33, 0, 0, 2, 0, 0, 0, 0, 0⟩ ∈
      (exStoreH.RangeByNumber 0 5 2).1 :=
  ⟨by decide,
    ((rangeByNumber_height_complete exStoreH 0 5 2).2
      ⟨1, 31, 0, 0, 1, 0, 0, 0, 0, 0⟩ [⟨2, 32, 0, 0, 2, 0, 0, 0, 0, 0⟩]
      (by decide)).1 ⟨3, 33, 0, 0, 2, 0, 0, 0, 0, 0⟩ (by decide) (by decide)⟩

/-- C4: `Range` boundary semantics.  Absent boundaries default to
`[0, math.MaxUint64]`; a supplied start identity is resolved to its `PK` and
treated exclusively (the window starts at `PK+1`, so the boundary's own
record is excluded); a supplied end identity is treated inclusively (the
window ends at its `PK`); a supplied boundary that cannot be resolved yields
the empty result, never a partial scan; and every result is an
ascending-by-`PK` scan of length at most the page size. -/
theorem range_boundaries_spec (d : indexDB) (hwf : d.WF) (pageSize : Nat) :
    ((d.Range pageSize none none).1 =
      ((d.db.records.filter (fun r => decide (r.PK ≤ maxUint64))).take pageSize).map
        (·.ToCrossTransaction)) ∧
    (∀ en ∈ d.db.records,
      (d.Range pageSize none (some en.CtxId)).1 =
        ((d.db.records.filter (fun r => decide (r.PK ≤ en.PK))).take pageSize).map
          (·.ToCrossTransaction)) ∧
    (∀ st ∈ d.db.records,
      (d.Range pageSize (some st.CtxId) none).1 =
        ((d.db.records.filter
          (fun r => decide (st.PK + 1 ≤ r.PK) && decide (r.PK ≤ maxUint64))).take
            pageSize).map (·.ToCrossTransaction)) ∧
    (∀ st ∈ d.db.records, ∀ en ∈ d.db.records,
      (d.Range pageSize (some st.CtxId) (some en.CtxId)).1 =
        ((d.db.records.filter
          (fun r => decide (st.PK + 1 ≤ r.PK) && decide (r.PK ≤ en.PK))).take
            pageSize).map (·.ToCrossTransaction)) ∧
    (∀ sid, d.db.one .CtxId sid = none →
      ∀ eo, (d.Range pageSize (some sid) eo).1 = []) ∧
    (∀ eid, d.db.one .CtxId eid = none →
      (d.Range pageSize none (some eid)).1 = [] ∧
      ∀ st ∈ d.db.records,
        (d.Range pageSize (some st.CtxId) (some eid)).1 = []) ∧
    (∀ so eo, ∃ l : List CrossTransactionIndexed,
      (d.Range pageSize so eo).1 = l.map (·.ToCrossTransaction) ∧
      l.Pairwise (fun a b => a.PK < b.PK) ∧ l.length ≤ pageSize) := by
  have hzero : ∀ hi n : Nat, d.db.range .PK 0 hi n =
      (d.db.records.filter (fun r => decide (r.PK ≤ hi))).take n := by
    intro hi n
    rw [range_pk_eq hwf]
    congr 1
    apply List.filter_congr
    intro x hx
    simp
  refine ⟨?_, ?_, ?_, ?_, ?_, ?_, ?_⟩
  · simp only [indexDB.Range]
    rw [hzero]
  · intro en hen
    rcases hget : d.get en.CtxId with ⟨res, d1⟩
    have hres : res = .ok en := by
      have h1 := get_hit hwf (one_of_mem hwf hen)
      rw [hget] at h1
      exact h1
    subst hres
    have hd1 : d1.db = d.db := by
      have h1 := get_db_eq d en.CtxId
      rw [hget] at h1
      exact h1
    simp only [indexDB.Range, hget]
    rw [hd1, hzero]
  · intro st hst
    rcases hget : d.get st.CtxId with ⟨res, d1⟩
    have hres : res = .ok st := by
      have h1 := get_hit hwf (one_of_mem hwf hst)
      rw [hget] at h1
      exact h1
    subst hres
    have hd1 : d1.db = d.db := by
      have h1 := get_db_eq d st.CtxId
      rw [hget] at h1
      exact h1
    simp only [indexDB.Range, hget]
    rw [hd1, range_pk_eq hwf]
  · intro st hst en hen
    rcases hget : d.get st.CtxId with ⟨res, d1⟩
    have hres : res = .ok st := by
      have h1 := get_hit hwf (one_of_mem hwf hst)
      rw [hget] at h1
      exact h1
    subst hres
    have hd1 : d1.db = d.db := by
      have h1 := get_db_eq d st.CtxId
      rw [hget] at h1
      exact h1
    have hwf1 : d1.WF := by
      have h1 := get_wf hwf st.CtxId
      rw [hget] at h1
      exact h1
    have honeE1 : d1.db.one .CtxId en.CtxId = some en := by
      rw [hd1]
      exact one_of_mem hwf hen
    rcases hget2 : d1.get en.CtxId with ⟨res2, d2⟩
    have hres2 : res2 = .ok en := by
      have h1 := get_hit hwf1 honeE1
      rw [hget2] at h1
      exact h1
    subst hres2
    have hd2 : d2.db = d1.db := by
      have h1 := get_db_eq d1 en.CtxId
      rw [hget2] at h1
      exact h1
    simp only [indexDB.Range, hget, hget2]
    rw [hd2, hd1, range_pk_eq hwf]
  · intro sid hsid eo
    have hg := get_miss hwf hsid
    simp only [indexDB.Range, hg]
  · intro eid heid
    have hg := get_miss hwf heid
    constructor
    · simp only [indexDB.Range, hg]
    · intro st hst
      rcases hget : d.get st.CtxId with ⟨res, d1⟩
      have hres : res = .ok st := by
        have h1 := get_hit hwf (one_of_mem hwf hst)
        rw [hget] at h1
        exact h1
      subst hres
      have hd1 : d1.db = d.db := by
        have h1 := get_db_eq d st.CtxId
        rw [hget] at h1
        exact h1
      have hwf1 : d1.WF := by
        have h1 := get_wf hwf st.CtxId
        rw [hget] at h1
        exact h1
      have hg2 := get_miss hwf1 (show d1.db.one .CtxId eid = none by
        rw [hd1]; exact heid)
      simp only [indexDB.Range, hget, hg2]
  · intro so eo
    cases so with
    | none =>
      cases eo with
      | none =>
        refine ⟨d.db.range .PK 0 maxUint64 pageSize, ?_,
          (range_pk_shape hwf 0 maxUint64 pageSize).1,
          (range_pk_shape hwf 0 maxUint64 pageSize).2⟩
        simp only [indexDB.Range]
      | some eid =>
        rcases hget : d.get eid with ⟨res, d1⟩
        have hd1 : d1.db = d.db := by
          have h1 := get_db_eq d eid
          rw [hget] at h1
          exact h1
        cases res with
        | error err =>
          exact ⟨[], by simp only [indexDB.Range, hget, List.map_nil],
            List.Pairwise.nil, Nat.zero_le _⟩
        | ok en =>
          refine ⟨d.db.range .PK 0 en.PK pageSize, ?_,
            (range_pk_shape hwf 0 en.PK pageSize).1,
            (range_pk_shape hwf 0 en.PK pageSize).2⟩
          simp only [indexDB.Range, hget]
          rw [hd1]
    | some sid =>
      rcases hget : d.get sid with ⟨res, d1⟩
      have hd1 : d1.db = d.db := by
        have h1 := get_db_eq d sid
        rw [hget] at h1
        exact h1
      cases res with
      | error err =>
        exact ⟨[], by simp only [indexDB.Range, hget, List.map_nil],
          List.Pairwise.nil, Nat.zero_le _⟩
      | ok s =>
        cases eo with
        | none =>
          refine ⟨d.db.range .PK (s.PK + 1) maxUint64 pageSize, ?_,
            (range_pk_shape hwf (s.PK + 1) maxUint64 pageSize).1,
            (range_pk_shape hwf (s.PK + 1) maxUint64 pageSize).2⟩
          simp only [indexDB.Range, hget]
          rw [hd1]
        | some eid =>
          rcases hget2 : d1.get eid with ⟨res2, d2⟩
          have hd2 : d2.db = d1.db := by
            have h1 := get_db_eq d1 eid
            rw [hget2] at h1
            exact h1
          cases res2 with
          | error err =>
            exact ⟨[], by simp only [indexDB.Range, hget, hget2, List.map_nil],
              List.Pairwise.nil, Nat.zero_le _⟩
          | ok en =>
            refine ⟨d.db.range .PK (s.PK + 1) en.PK pageSize, ?_,
              (range_pk_shape hwf (s.PK + 1) en.PK pageSize).1,
              (range_pk_shape hwf (s.PK + 1) en.PK pageSize).2⟩
            simp only [indexDB.Range, hget, hget2]
            rw [hd2, hd1]

/-- Witness for C4: a start boundary at the first record of the three-record
store excludes that record from the scan. -/
theorem range_boundaries_spec_witness :
    exStoreH.WF ∧
    (exStoreH.Range 10 (some (31 : Nat)) none).1 =
      ((exStoreH.db.records.filter
        (fun r => decide ((1 : Nat) + 1 ≤ r.PK) && decide (r.PK ≤ maxUint64))).take 10).map
        (·.ToCrossTransaction) :=
  ⟨by decide,
    (range_boundaries_spec exStoreH (by decide) 10).2.2.1
      ⟨1, 31, 0, 0, 1, 0, 0, 0, 0, 0⟩ (by decide)⟩
